import Mathlib

/-!
Shallow embedding of the real-time presence, room-membership and
message-broadcast subsystem of the `personal-chat` repository.

The embedded code:
  * `src/server/middleware/authSocket.js` — `authSocketMiddleware`:
    `socket.user = { id: socket.id, name: auth?.name || headers['x-user-name'] || 'Guest' }`.
  * the Socket.IO wiring (`src/unnamed/part_004`): the `onlineUsers` map
    (`socketId -> { id, name }`), `broadcastPresence()`, and the
    `connection` / `joinRoom` / `typing` / `disconnect` handlers.
  * `src/api/chat/messages.js` — `sendMessage`'s fan-out
    `io.to(roomId).emit('message:new', message)`.

JavaScript `Map` is modelled as an insertion-ordered association list with
first-match (unique-key) update; the Socket.IO adapter's room bookkeeping
(`socket.join`, `socket.leave`, the removal of a socket from all of its
rooms on disconnect, deletion of a room when its member set becomes empty,
`io.emit`, `io.to(room).emit`, `socket.to(room).emit`) is modelled as an
association list from room ids to member lists, following the adapter's
documented semantics, which the wiring code relies on.
-/

namespace PersonalChat

/-- A registered presence entry, the value stored in the `onlineUsers` map:
`{ id: socket.id, name }`. -/
structure User where
  id : String
  name : String
  deriving DecidableEq, Repr

/-- A persisted chat message; the relay treats it as an opaque payload
(`src/api/chat/messages.js` hands the stored document to `io.to(...).emit`). -/
structure Message where
  roomId : String
  senderName : String
  text : String
  deriving DecidableEq, Repr

/-- The events the subsystem emits to individual sockets. -/
inductive Event where
  | presenceList (users : List User)
  | messageNew (msg : Message)
  | typing (userId : String) (isTyping : Bool)
  deriving DecidableEq, Repr

/-- JavaScript `a || b` for an optional string: `undefined` and the empty
string are falsy and fall through to `b`. -/
def jsOr (a : Option String) (b : String) : String :=
  match a with
  | some s => if s = "" then b else s
  | none => b

/-- Name resolution performed by `authSocketMiddleware`
(`src/server/middleware/authSocket.js`):
`socket.handshake.auth?.name || socket.handshake.headers['x-user-name'] || 'Guest'`. -/
def resolveName (authName headerName : Option String) : String :=
  jsOr authName (jsOr headerName "Guest")

/-- The middleware attaches `socket.user = { id: socket.id, name }`. -/
def socketUser (sid : String) (authName headerName : Option String) : User :=
  { id := sid, name := resolveName authName headerName }

/-- The entry the `connection` handler stores:
`onlineUsers.set(socket.id, { id: socket.id, name: socket.user?.name || 'Guest' })`. -/
def connectEntry (sid : String) (authName headerName : Option String) : User :=
  { id := sid, name := jsOr (some (socketUser sid authName headerName).name) "Guest" }

/-- JavaScript `Map.set`: overwrite the (unique) entry with the given key in
place, or append a new entry at the end. -/
def mapSet (m : List (String × User)) (k : String) (v : User) : List (String × User) :=
  match m with
  | [] => [(k, v)]
  | p :: rest => if p.1 = k then (k, v) :: rest else p :: mapSet rest k v

/-- JavaScript `Map.delete`: remove the entry with the given key. -/
def mapDelete (m : List (String × User)) (k : String) : List (String × User) :=
  m.filter (fun p => p.1 ≠ k)

/-- JavaScript `Array.from(map.values())` in insertion order. -/
def mapValues (m : List (String × User)) : List User :=
  m.map Prod.snd

/-- Socket.IO adapter: the member list of a room; a room with no record has
no members. -/
def roomMembers (rooms : List (String × List String)) (r : String) : List String :=
  match rooms with
  | [] => []
  | p :: rest => if p.1 = r then p.2 else roomMembers rest r

/-- Socket.IO `socket.join(room)`: create the room record on first join,
and add the socket to the member set if it is not already there. -/
def socketJoin (rooms : List (String × List String)) (r c : String) :
    List (String × List String) :=
  match rooms with
  | [] => [(r, [c])]
  | p :: rest =>
    if p.1 = r then
      (if c ∈ p.2 then p :: rest else (p.1, p.2 ++ [c]) :: rest)
    else p :: socketJoin rest r c

/-- Socket.IO `socket.leave(room)`: remove the socket from the room's member
set; a room whose member set becomes empty is deleted from the adapter. -/
def socketLeave (rooms : List (String × List String)) (r c : String) :
    List (String × List String) :=
  match rooms with
  | [] => []
  | p :: rest =>
    if p.1 = r then
      (if p.2.filter (fun x => x ≠ c) = [] then rest
       else (p.1, p.2.filter (fun x => x ≠ c)) :: rest)
    else p :: socketLeave rest r c

/-- Socket.IO disconnect teardown: the socket leaves every room it is in;
rooms whose member set becomes empty are deleted. -/
def leaveAllRooms (rooms : List (String × List String)) (c : String) :
    List (String × List String) :=
  match rooms with
  | [] => []
  | p :: rest =>
    if p.2.filter (fun x => x ≠ c) = [] then leaveAllRooms rest c
    else (p.1, p.2.filter (fun x => x ≠ c)) :: leaveAllRooms rest c

/-- The server's shared mutable state: the live sockets, the `onlineUsers`
map, and the adapter's room index. -/
structure ServerState where
  sockets : List String
  onlineUsers : List (String × User)
  rooms : List (String × List String)
  deriving DecidableEq, Repr

/-- The state at process start: no connections, no registrations, no rooms. -/
def initState : ServerState :=
  { sockets := [], onlineUsers := [], rooms := [] }

/-- `ConnectionRegistry.list()`: `Array.from(onlineUsers.values())`. -/
def registryList (st : ServerState) : List User :=
  mapValues st.onlineUsers

/-- `broadcastPresence()`: `io.emit('presence:list', { users: Array.from(onlineUsers.values()) })`
— one delivery of the current snapshot to every live socket. -/
def broadcastPresence (st : ServerState) : List (String × Event) :=
  st.sockets.map (fun s => (s, Event.presenceList (registryList st)))

/-- The `connection` handler: the socket becomes live, the handler stores
`onlineUsers.set(socket.id, { id: socket.id, name: socket.user?.name || 'Guest' })`,
calls `broadcastPresence()`, then auto-joins the private room
`socket.join(socket.user.id)`. The broadcast reads the registry after the
insertion and before the auto-join (which does not affect it). -/
def connect (st : ServerState) (sid : String) (authName headerName : Option String) :
    ServerState × List (String × Event) :=
  let st1 : ServerState :=
    { st with
      sockets := st.sockets ++ [sid]
      onlineUsers := mapSet st.onlineUsers sid (connectEntry sid authName headerName) }
  let st2 : ServerState :=
    { st1 with rooms := socketJoin st1.rooms (socketUser sid authName headerName).id sid }
  (st2, broadcastPresence st1)

/-- The `joinRoom` handler: `socket.join(roomId)` and nothing else — no
registry mutation and no emission. -/
def joinRoom (st : ServerState) (sid roomId : String) :
    ServerState × List (String × Event) :=
  ({ st with rooms := socketJoin st.rooms roomId sid }, [])

/-- The `typing` handler:
`socket.to(roomId).emit('typing', { userId: socket.user.id, isTyping })` —
delivery to every member of the room except the emitting socket
(`socket.user.id = socket.id` by the middleware). -/
def typingStep (st : ServerState) (sid roomId : String) (isTyping : Bool) :
    ServerState × List (String × Event) :=
  (st,
   ((roomMembers st.rooms roomId).filter (fun m => m ≠ sid)).map
     (fun m => (m, Event.typing sid isTyping)))

/-- The `disconnect` transition: the adapter removes the socket from all of
its rooms and from the live set, then the handler runs
`onlineUsers.delete(socket.id); broadcastPresence()` — the broadcast reads
the registry after the deletion. -/
def disconnect (st : ServerState) (sid : String) :
    ServerState × List (String × Event) :=
  let st1 : ServerState :=
    { sockets := st.sockets.filter (fun x => x ≠ sid)
      onlineUsers := mapDelete st.onlineUsers sid
      rooms := leaveAllRooms st.rooms sid }
  (st1, broadcastPresence st1)

/-- `sendMessage`'s fan-out (`src/api/chat/messages.js`):
`io.to(roomId).emit('message:new', message)` — delivery to every member of
the room, the sender's socket not excluded. -/
def relay (st : ServerState) (roomId : String) (msg : Message) :
    List (String × Event) :=
  (roomMembers st.rooms roomId).map (fun m => (m, Event.messageNew msg))

/-- A register (connect) or unregister (disconnect) operation on the
Connection Registry, as performed by the lifecycle handlers. -/
inductive RegOp where
  | register (sid : String) (authName headerName : Option String)
  | unregister (sid : String)

/-- Apply one register/unregister operation (the state part of the
corresponding lifecycle transition). -/
def applyRegOp (st : ServerState) : RegOp → ServerState
  | RegOp.register sid a h => (connect st sid a h).1
  | RegOp.unregister sid => (disconnect st sid).1

/-- Apply a sequence of register/unregister operations in order. -/
def applyRegOps (st : ServerState) (ops : List RegOp) : ServerState :=
  ops.foldl applyRegOp st

/-- Well-formedness of the adapter's room index, maintained by the adapter
itself: room keys are unique (it is a `Map`) and no room record is empty
(empty rooms are deleted). -/
abbrev RoomsWF (rooms : List (String × List String)) : Prop :=
  (rooms.map Prod.fst).Nodup ∧ ∀ p ∈ rooms, p.2 ≠ []

/-- A concrete demonstration state: sockets "a" and "b", both in room "general". -/
def demoGeneral : ServerState :=
  { sockets := ["a", "b"], onlineUsers := [], rooms := [("general", ["a", "b"])] }

/-- A concrete demonstration state: sockets "a" and "b", both in room "g". -/
def demoG : ServerState :=
  { sockets := ["a", "b"], onlineUsers := [], rooms := [("g", ["a", "b"])] }

/-- A concrete demonstration state: one socket "a", no rooms. -/
def demoA : ServerState :=
  { sockets := ["a"], onlineUsers := [], rooms := [] }

/-! Helper lemmas about the room index operations. -/

theorem map_fst_pairs (l : List String) (e : Event) :
    (l.map (fun s => (s, e))).map Prod.fst = l := by
  induction l with
  | nil => rfl
  | cons a t ih => simp [ih]

theorem roomMembers_of_not_key (rooms : List (String × List String)) (r : String)
    (h : r ∉ rooms.map Prod.fst) : roomMembers rooms r = [] := by
  induction rooms with
  | nil => rfl
  | cons p rest ih =>
    simp only [List.map_cons, List.mem_cons, not_or] at h
    simp [roomMembers, Ne.symm h.1, ih h.2]

theorem mem_roomMembers_socketJoin (rooms : List (String × List String)) (r c : String) :
    c ∈ roomMembers (socketJoin rooms r c) r := by
  induction rooms with
  | nil => simp [socketJoin, roomMembers]
  | cons p rest ih =>
    by_cases hp : p.1 = r
    · by_cases hc : c ∈ p.2
      · simp [socketJoin, hp, hc, roomMembers]
      · simp [socketJoin, hp, hc, roomMembers, List.mem_append]
    · simp [socketJoin, hp, roomMembers, ih]

theorem socketJoin_of_mem (rooms : List (String × List String)) (r c : String)
    (h : c ∈ roomMembers rooms r) : socketJoin rooms r c = rooms := by
  induction rooms with
  | nil => simp [roomMembers] at h
  | cons p rest ih =>
    by_cases hp : p.1 = r
    · have hc : c ∈ p.2 := by simpa [roomMembers, hp] using h
      simp [socketJoin, hp, hc]
    · have h2 : c ∈ roomMembers rest r := by simpa [roomMembers, hp] using h
      simp [socketJoin, hp, ih h2]

theorem roomMembers_socketJoin_ne (rooms : List (String × List String)) (r c r2 : String)
    (h : r2 ≠ r) : roomMembers (socketJoin rooms r c) r2 = roomMembers rooms r2 := by
  induction rooms with
  | nil => simp [socketJoin, roomMembers, Ne.symm h]
  | cons p rest ih =>
    have hrr : r ≠ r2 := Ne.symm h
    by_cases hp : p.1 = r
    · have hp2 : p.1 ≠ r2 := by rw [hp]; exact hrr
      by_cases hc : c ∈ p.2
      · simp [socketJoin, hp, hc]
      · simp [socketJoin, hp, hc, roomMembers, hp2, hrr]
    · by_cases hq : p.1 = r2
      · simp [socketJoin, hp, roomMembers, hq, hrr, h]
      · simp [socketJoin, hp, roomMembers, hq, ih]

theorem filter_ne_of_not_mem {c : String} {l : List String} (h : c ∉ l) :
    l.filter (fun x => x ≠ c) = l := by
  refine List.filter_eq_self.mpr ?_
  intro x hx
  simp only [ne_eq, decide_eq_true_eq]
  intro hxc
  exact h (hxc ▸ hx)

theorem socketLeave_of_not_mem (rooms : List (String × List String)) (r c : String)
    (hne : ∀ p ∈ rooms, p.2 ≠ []) (h : c ∉ roomMembers rooms r) :
    socketLeave rooms r c = rooms := by
  induction rooms with
  | nil => rfl
  | cons p rest ih =>
    by_cases hp : p.1 = r
    · have hc : c ∉ p.2 := by simpa [roomMembers, hp] using h
      have hfe : p.2.filter (fun x => x ≠ c) = p.2 := filter_ne_of_not_mem hc
      have hpe : p.2 ≠ [] := hne p (List.mem_cons_self p rest)
      simp only [socketLeave]
      rw [if_pos hp, hfe, if_neg hpe]
    · have h2 : c ∉ roomMembers rest r := by simpa [roomMembers, hp] using h
      have hne2 : ∀ q ∈ rest, q.2 ≠ [] := fun q hq => hne q (List.mem_cons_of_mem p hq)
      simp only [socketLeave]
      rw [if_neg hp, ih hne2 h2]

theorem socketLeave_socketJoin (rooms : List (String × List String)) (r c : String)
    (hne : ∀ p ∈ rooms, p.2 ≠ []) (h : c ∉ roomMembers rooms r) :
    socketLeave (socketJoin rooms r c) r c = rooms := by
  induction rooms with
  | nil => simp [socketJoin, socketLeave]
  | cons p rest ih =>
    by_cases hp : p.1 = r
    · have hc : c ∉ p.2 := by simpa [roomMembers, hp] using h
      have hfe : p.2.filter (fun x => x ≠ c) = p.2 := filter_ne_of_not_mem hc
      have hpe : p.2 ≠ [] := hne p (List.mem_cons_self p rest)
      have hfilter : (p.2 ++ [c]).filter (fun x => x ≠ c) = p.2 := by
        rw [List.filter_append, hfe]
        simp
      simp only [socketJoin]
      rw [if_pos hp, if_neg hc]
      simp only [socketLeave]
      rw [if_pos hp, hfilter, if_neg hpe]
    · have h2 : c ∉ roomMembers rest r := by simpa [roomMembers, hp] using h
      have hne2 : ∀ q ∈ rest, q.2 ≠ [] := fun q hq => hne q (List.mem_cons_of_mem p hq)
      simp only [socketJoin]
      rw [if_neg hp]
      simp only [socketLeave]
      rw [if_neg hp, ih hne2 h2]

theorem not_mem_roomMembers_socketLeave (rooms : List (String × List String)) (r c : String)
    (hnd : (rooms.map Prod.fst).Nodup) :
    c ∉ roomMembers (socketLeave rooms r c) r := by
  induction rooms with
  | nil => simp [socketLeave, roomMembers]
  | cons p rest ih =>
    have hnd2 : (rest.map Prod.fst).Nodup := (List.nodup_cons.mp hnd).2
    by_cases hp : p.1 = r
    · have hr : r ∉ rest.map Prod.fst := hp ▸ (List.nodup_cons.mp hnd).1
      by_cases hf : p.2.filter (fun x => x ≠ c) = []
      · simp only [socketLeave, hp, if_true, hf]
        rw [roomMembers_of_not_key rest r hr]
        simp
      · simp only [socketLeave, hp, if_true, hf, if_false, roomMembers]
        intro hcm
        have := List.of_mem_filter hcm
        simp at this
    · simp only [socketLeave, hp, if_false, roomMembers, ite_false]
      exact ih hnd2

theorem mem_roomMembers_leaveAll (rooms : List (String × List String)) (c r x : String)
    (hx : x ∈ roomMembers (leaveAllRooms rooms c) r) : x ≠ c := by
  induction rooms with
  | nil => simp [leaveAllRooms, roomMembers] at hx
  | cons p rest ih =>
    simp only [leaveAllRooms] at hx
    by_cases hf : p.2.filter (fun x => x ≠ c) = []
    · rw [if_pos hf] at hx
      exact ih hx
    · rw [if_neg hf] at hx
      simp only [roomMembers] at hx
      by_cases hp : p.1 = r
      · rw [if_pos hp] at hx
        have := List.of_mem_filter hx
        simpa using this
      · rw [if_neg hp] at hx
        exact ih hx

/-! Helper lemmas about the `onlineUsers` map. -/

theorem mapSet_self_mem (m : List (String × User)) (k : String) (v : User) :
    (k, v) ∈ mapSet m k v := by
  induction m with
  | nil => simp [mapSet]
  | cons p rest ih =>
    by_cases hp : p.1 = k
    · simp [mapSet, hp]
    · simp [mapSet, hp, ih]

theorem mapSet_mem_of_ne (m : List (String × User)) (k k2 : String) (v v2 : User)
    (hm : (k2, v2) ∈ m) (hne : k2 ≠ k) : (k2, v2) ∈ mapSet m k v := by
  induction m with
  | nil => simp at hm
  | cons p rest ih =>
    by_cases hp : p.1 = k
    · have ht : (k2, v2) ∈ rest := by
        rcases List.mem_cons.mp hm with hh | ht
        · exact absurd ((congrArg Prod.fst hh).trans hp) hne
        · exact ht
      simp only [mapSet]
      rw [if_pos hp]
      exact List.mem_cons_of_mem _ ht
    · simp only [mapSet]
      rw [if_neg hp]
      rcases List.mem_cons.mp hm with hh | ht
      · exact hh ▸ List.mem_cons_self p _
      · exact List.mem_cons_of_mem p (ih ht)

theorem mapSet_keyId (m : List (String × User)) (k : String) (v : User)
    (hm : ∀ p ∈ m, p.2.id = p.1) (hv : v.id = k) :
    ∀ p ∈ mapSet m k v, p.2.id = p.1 := by
  induction m with
  | nil =>
    intro p hp
    simp only [mapSet, List.mem_singleton] at hp
    simp [hp, hv]
  | cons q rest ih =>
    intro p hp
    by_cases hq : q.1 = k
    · simp only [mapSet, hq, if_true] at hp
      rcases List.mem_cons.mp hp with hh | ht
      · simp [hh, hv]
      · exact hm p (List.mem_cons_of_mem q ht)
    · simp only [mapSet, hq, if_false] at hp
      rcases List.mem_cons.mp hp with hh | ht
      · exact hm p (hh ▸ List.mem_cons_self q rest)
      · exact ih (fun q2 hq2 => hm q2 (List.mem_cons_of_mem q hq2)) p ht

/-- Key/value coherence of the registry: every stored entry's `id` field
equals its map key, for every state reachable from process start. -/
theorem applyRegOps_keyId (ops : List RegOp) (st : ServerState)
    (hst : ∀ p ∈ st.onlineUsers, p.2.id = p.1) :
    ∀ p ∈ (applyRegOps st ops).onlineUsers, p.2.id = p.1 := by
  induction ops generalizing st with
  | nil => simpa [applyRegOps] using hst
  | cons op ops ih =>
    have hstep : ∀ p ∈ (applyRegOp st op).onlineUsers, p.2.id = p.1 := by
      cases op with
      | register sid a h =>
        simpa [applyRegOp, connect] using mapSet_keyId st.onlineUsers sid _ hst rfl
      | unregister sid =>
        intro p hp
        simp only [applyRegOp, disconnect, mapDelete, List.mem_filter] at hp
        exact hst p hp.1
    have : applyRegOps st (op :: ops) = applyRegOps (applyRegOp st op) ops := rfl
    rw [this]
    exact ih (applyRegOp st op) hstep

/-! The claims. -/

/-- C1: for every sequence of register/unregister operations, `broadcastPresence()`
delivers a `presence:list` event to every live connection — the recipient list is
exactly the live-socket list — and every delivered snapshot is literally
`ConnectionRegistry.list()` read at the moment of the call, so its connectionId set
equals that of `list()`; the broadcast is global, not room-scoped. -/
theorem broadcastPresence_reflects_registry (ops : List RegOp) (sid : String)
    (hs : sid ∈ (applyRegOps initState ops).sockets) :
    (broadcastPresence (applyRegOps initState ops)).map Prod.fst
        = (applyRegOps initState ops).sockets
    ∧ (sid, Event.presenceList (registryList (applyRegOps initState ops)))
        ∈ broadcastPresence (applyRegOps initState ops)
    ∧ ∀ d ∈ broadcastPresence (applyRegOps initState ops),
        d.2 = Event.presenceList (registryList (applyRegOps initState ops)) := by
  refine ⟨?_, ?_, ?_⟩
  · exact map_fst_pairs (applyRegOps initState ops).sockets _
  · exact List.mem_map.mpr ⟨sid, hs, rfl⟩
  · intro d hd
    obtain ⟨s, hs2, rfl⟩ := List.mem_map.mp hd
    rfl

/-- Witness for C1 at the reachable state with one registered connection. -/
theorem broadcastPresence_reflects_registry_witness :
    "a" ∈ (applyRegOps initState [RegOp.register "a" (some "Alice") none]).sockets
    ∧ ("a", Event.presenceList (registryList (applyRegOps initState
          [RegOp.register "a" (some "Alice") none])))
        ∈ broadcastPresence (applyRegOps initState [RegOp.register "a" (some "Alice") none]) :=
  ⟨by decide,
   (broadcastPresence_reflects_registry [RegOp.register "a" (some "Alice") none] "a"
      (by decide)).2.1⟩

/-- C2: the disconnect transition removes the connection from the registry strictly
before `broadcastPresence()` recomputes the snapshot, so in every state reachable
from process start, no `presence:list` payload emitted by a connection's own
disconnect contains that connection. -/
theorem disconnect_presence_excludes_self (ops : List RegOp) (sid : String)
    (d : String × Event) (us : List User) (u : User)
    (hd : d ∈ (disconnect (applyRegOps initState ops) sid).2)
    (hp : d.2 = Event.presenceList us) (hu : u ∈ us) : u.id ≠ sid := by
  simp only [disconnect, broadcastPresence] at hd
  obtain ⟨s, hs, rfl⟩ := List.mem_map.mp hd
  simp only [Event.presenceList.injEq] at hp
  subst hp
  simp only [registryList, mapValues, mapDelete] at hu
  obtain ⟨p, hpm, rfl⟩ := List.mem_map.mp hu
  rw [List.mem_filter] at hpm
  have hid : p.2.id = p.1 :=
    applyRegOps_keyId ops initState (by intro q hq; simp [initState] at hq) p hpm.1
  rw [hid]
  simpa using hpm.2

/-- Witness for C2: after registering "a" and "b", disconnecting "a" broadcasts a
snapshot containing only "b". -/
theorem disconnect_presence_excludes_self_witness :
    ("b", Event.presenceList [{ id := "b", name := "Bob" }])
        ∈ (disconnect (applyRegOps initState
            [RegOp.register "a" (some "Alice") none, RegOp.register "b" (some "Bob") none])
            "a").2
    ∧ ({ id := "b", name := "Bob" } : User).id ≠ "a" :=
  ⟨by decide,
   disconnect_presence_excludes_self
     [RegOp.register "a" (some "Alice") none, RegOp.register "b" (some "Bob") none] "a"
     ("b", Event.presenceList [{ id := "b", name := "Bob" }])
     [{ id := "b", name := "Bob" }] { id := "b", name := "Bob" }
     (by decide) (by decide) (by decide)⟩

/-- C3: `relay(r, m)` — the `io.to(roomId).emit('message:new', message)` fan-out in
`sendMessage` — delivers a `message:new` event carrying `m` to every connection in
`membersOf(r)`, and the recipient list is exactly `membersOf(r)`; in particular the
sender's own connection, when a member, is not excluded by the transport layer. -/
theorem relay_fanout_complete (st : ServerState) (roomId : String) (msg : Message)
    (m : String) (hm : m ∈ roomMembers st.rooms roomId) :
    (m, Event.messageNew msg) ∈ relay st roomId msg
    ∧ (relay st roomId msg).map Prod.fst = roomMembers st.rooms roomId := by
  constructor
  · exact List.mem_map.mpr ⟨m, hm, rfl⟩
  · exact map_fst_pairs (roomMembers st.rooms roomId) _

/-- Witness for C3: the sender "a", a member of "general", receives its own message. -/
theorem relay_fanout_complete_witness :
    "a" ∈ roomMembers demoGeneral.rooms "general"
    ∧ ("a", Event.messageNew { roomId := "general", senderName := "Alice", text := "hi" })
        ∈ relay demoGeneral "general"
            { roomId := "general", senderName := "Alice", text := "hi" } :=
  ⟨by decide,
   (relay_fanout_complete demoGeneral "general"
      { roomId := "general", senderName := "Alice", text := "hi" } "a" (by decide)).1⟩

/-- C4: `relayTyping(r, c, b)` — `socket.to(roomId).emit('typing', ...)` — delivers
the typing event `(userId := c, isTyping := b)` to a member `m` of the room if and
only if `m` is not the originating connection, even when the originator is itself a
member; no delivery targets the originator and every payload carries the originator's
connectionId. -/
theorem relayTyping_excludes_sender (st : ServerState) (sid roomId : String) (b : Bool)
    (m : String) (hm : m ∈ roomMembers st.rooms roomId) :
    (((m, Event.typing sid b) ∈ (typingStep st sid roomId b).2) ↔ m ≠ sid)
    ∧ ∀ d ∈ (typingStep st sid roomId b).2, d.1 ≠ sid ∧ d.2 = Event.typing sid b := by
  constructor
  · constructor
    · intro hmem
      obtain ⟨x, hx, hxe⟩ := List.mem_map.mp hmem
      have hxm : x = m := congrArg Prod.fst hxe
      have hxs := List.of_mem_filter hx
      rw [hxm] at hxs
      simpa using hxs
    · intro hne
      exact List.mem_map.mpr ⟨m, List.mem_filter.mpr ⟨hm, by simpa using hne⟩, rfl⟩
  · intro d hd
    obtain ⟨x, hx, rfl⟩ := List.mem_map.mp hd
    exact ⟨by simpa using List.of_mem_filter hx, rfl⟩

/-- Witness for C4: with "a" and "b" both in "g", "b" receives "a"'s typing event. -/
theorem relayTyping_excludes_sender_witness :
    "b" ∈ roomMembers demoG.rooms "g"
    ∧ ((("b", Event.typing "a" true) ∈ (typingStep demoG "a" "g" true).2)
        ↔ ("b" : String) ≠ "a") :=
  ⟨by decide, (relayTyping_excludes_sender demoG "a" "g" true "b" (by decide)).1⟩

/-- C5: after the disconnect transition (which performs the adapter's `leaveAll`),
the disconnected connection is a member of no room: every member of every room of
the post-disconnect state differs from it. -/
theorem leaveAll_removes_membership (st : ServerState) (sid r x : String)
    (hx : x ∈ roomMembers ((disconnect st sid).1).rooms r) : x ≠ sid :=
  mem_roomMembers_leaveAll st.rooms sid r x hx

/-- Witness for C5: "b" survives "a"'s disconnect in room "g" and differs from "a". -/
theorem leaveAll_removes_membership_witness :
    "b" ∈ roomMembers ((disconnect demoG "a").1).rooms "g"
    ∧ ("b" : String) ≠ "a" :=
  ⟨by decide, leaveAll_removes_membership demoG "a" "g" "b" (by decide)⟩

/-- C6 counterexample: in the room index `[("r", ["c"])]` — reachable by a single
`joinRoom` — connection `c` is already a member of `r`, and `join(r, c)` followed by
`leave(r, c)` empties the room instead of restoring the prior membership state, so
the claim as universally stated fails. -/
theorem join_then_leave_not_restoring :
    roomMembers (socketLeave (socketJoin [("r", ["c"])] "r" "c") "r" "c") "r"
      ≠ roomMembers [("r", ["c"])] "r" := by
  decide

/-- C6 (amended): on a well-formed room index (unique room keys and no empty room
record, the invariant the adapter maintains): after `join(r, c)` the connection `c`
is in `membersOf(r)`; after a subsequent `leave(r, c)` it is not; and provided `c`
was not already a member of `r` before the `join`, the join/leave pair restores the
prior membership state exactly, with no leaked entries. -/
theorem join_then_leave_amended (rooms : List (String × List String)) (r c : String)
    (hwf : RoomsWF rooms) :
    c ∈ roomMembers (socketJoin rooms r c) r
    ∧ c ∉ roomMembers (socketLeave (socketJoin rooms r c) r c) r
    ∧ (c ∉ roomMembers rooms r → socketLeave (socketJoin rooms r c) r c = rooms) := by
  refine ⟨mem_roomMembers_socketJoin rooms r c, ?_,
    fun hc => socketLeave_socketJoin rooms r c hwf.2 hc⟩
  by_cases hc : c ∈ roomMembers rooms r
  · rw [socketJoin_of_mem rooms r c hc]
    exact not_mem_roomMembers_socketLeave rooms r c hwf.1
  · rw [socketLeave_socketJoin rooms r c hwf.2 hc]
    exact hc

/-- Witness for C6 (amended): joining and leaving "g" with fresh connection "c"
restores the index `[("g", ["x"])]`. -/
theorem join_then_leave_amended_witness :
    RoomsWF [("g", ["x"])]
    ∧ socketLeave (socketJoin [("g", ["x"])] "g" "c") "g" "c" = [("g", ["x"])] :=
  ⟨⟨by decide, by decide⟩,
   (join_then_leave_amended [("g", ["x"])] "g" "c" ⟨by decide, by decide⟩).2.2 (by decide)⟩

/-- C7: the membership operations are total functions of the embedding (nothing to
throw): `membersOf` of an unknown room is the empty sequence, `join` of an unknown
room implicitly creates it (the joiner is a member afterwards), a duplicate `join`
is a no-op, and a redundant `leave` on an index with no empty room record is a no-op
rather than an error. -/
theorem membership_ops_never_fail (rooms : List (String × List String)) (r c : String) :
    (r ∉ rooms.map Prod.fst → roomMembers rooms r = [])
    ∧ c ∈ roomMembers (socketJoin rooms r c) r
    ∧ (c ∈ roomMembers rooms r → socketJoin rooms r c = rooms)
    ∧ ((∀ p ∈ rooms, p.2 ≠ []) → c ∉ roomMembers rooms r → socketLeave rooms r c = rooms) :=
  ⟨roomMembers_of_not_key rooms r, mem_roomMembers_socketJoin rooms r c,
   socketJoin_of_mem rooms r c, socketLeave_of_not_mem rooms r c⟩

/-- Witness for C7: the unknown room "h" has no members and leaving it changes
nothing. -/
theorem membership_ops_never_fail_witness :
    roomMembers [("g", ["x"])] "h" = []
    ∧ socketLeave [("g", ["x"])] "h" "c" = [("g", ["x"])] :=
  ⟨(membership_ops_never_fail [("g", ["x"])] "h" "c").1 (by decide),
   (membership_ops_never_fail [("g", ["x"])] "h" "c").2.2.2 (by decide) (by decide)⟩

/-- C8: when the handshake carries no usable display name — the `auth.name` field
and the `x-user-name` header are both absent or empty — the registered presence
entry's name is the sentinel "Guest", and registration still succeeds: the entry is
stored in the registry under the connection's id. -/
theorem register_guest_fallback (st : ServerState) (sid : String) (a h : Option String)
    (ha : a = none ∨ a = some "") (hh : h = none ∨ h = some "") :
    (sid, connectEntry sid a h) ∈ ((connect st sid a h).1).onlineUsers
    ∧ (connectEntry sid a h).name = "Guest"
    ∧ (connectEntry sid a h).id = sid := by
  refine ⟨?_, ?_, rfl⟩
  · exact mapSet_self_mem st.onlineUsers sid (connectEntry sid a h)
  · rcases ha with rfl | rfl <;> rcases hh with rfl | rfl <;> rfl

/-- Witness for C8 with both name channels absent. -/
theorem register_guest_fallback_witness :
    ((none : Option String) = none ∨ (none : Option String) = some "")
    ∧ (connectEntry "s" none none).name = "Guest" :=
  ⟨Or.inl rfl,
   (register_guest_fallback initState "s" none none (Or.inl rfl) (Or.inl rfl)).2.1⟩

/-- C9: the `joinRoom` transition only adds the membership `(roomId, sid)`: the
Connection Registry and the live-socket list are unchanged, no event — in particular
no `presence:list` broadcast — is emitted, the joiner is a member of the target room
afterwards, and the membership of every other room is untouched. -/
theorem joinRoom_frame (st : ServerState) (sid roomId : String) :
    ((joinRoom st sid roomId).1).onlineUsers = st.onlineUsers
    ∧ ((joinRoom st sid roomId).1).sockets = st.sockets
    ∧ (joinRoom st sid roomId).2 = []
    ∧ sid ∈ roomMembers ((joinRoom st sid roomId).1).rooms roomId
    ∧ ∀ r2, r2 ≠ roomId →
        roomMembers ((joinRoom st sid roomId).1).rooms r2 = roomMembers st.rooms r2 :=
  ⟨rfl, rfl, rfl, mem_roomMembers_socketJoin st.rooms roomId sid,
   fun r2 h2 => roomMembers_socketJoin_ne st.rooms roomId sid r2 h2⟩

/-- Witness for C9: joining "g" emits nothing and leaves room "h" untouched. -/
theorem joinRoom_frame_witness :
    (joinRoom demoA "a" "g").2 = []
    ∧ roomMembers ((joinRoom demoA "a" "g").1).rooms "h" = roomMembers demoA.rooms "h" :=
  ⟨(joinRoom_frame demoA "a" "g").2.2.1,
   (joinRoom_frame demoA "a" "g").2.2.2.2 "h" (by decide)⟩

/-- C10: the middleware attaches `socket.user.id = socket.id`; consequently the
typing event's `userId`, the auto-joined private room's key and the stored presence
entry's id all equal the connectionId, and two simultaneous connections with the same
display name are stored as two distinct presence entries under their distinct
connectionIds rather than being merged. -/
theorem identity_is_connectionId (st : ServerState) (sid r2 : String) (b : Bool)
    (a h : Option String) (st0 : ServerState) (sidA sidB nm : String)
    (hne : sidA ≠ sidB) :
    (socketUser sid a h).id = sid
    ∧ (∀ d ∈ (typingStep st sid r2 b).2, d.2 = Event.typing sid b)
    ∧ sid ∈ roomMembers ((connect st sid a h).1).rooms sid
    ∧ ((sid, connectEntry sid a h) ∈ ((connect st sid a h).1).onlineUsers
        ∧ (connectEntry sid a h).id = sid)
    ∧ (∃ uA uB : User,
        (sidA, uA) ∈ ((connect ((connect st0 sidA (some nm) none).1) sidB
            (some nm) none).1).onlineUsers
        ∧ (sidB, uB) ∈ ((connect ((connect st0 sidA (some nm) none).1) sidB
            (some nm) none).1).onlineUsers
        ∧ uA.name = uB.name) := by
  refine ⟨rfl, ?_, ?_, ⟨?_, rfl⟩, ?_⟩
  · intro d hd
    obtain ⟨x, hx, rfl⟩ := List.mem_map.mp hd
    rfl
  · exact mem_roomMembers_socketJoin st.rooms sid sid
  · exact mapSet_self_mem st.onlineUsers sid (connectEntry sid a h)
  · refine ⟨connectEntry sidA (some nm) none, connectEntry sidB (some nm) none, ?_, ?_, rfl⟩
    · exact mapSet_mem_of_ne _ sidB sidA _ _
        (mapSet_self_mem st0.onlineUsers sidA (connectEntry sidA (some nm) none)) hne
    · exact mapSet_self_mem _ sidB (connectEntry sidB (some nm) none)

/-- Witness for C10 with two distinct connections sharing the display name "Ann". -/
theorem identity_is_connectionId_witness :
    ("a" : String) ≠ "b"
    ∧ (socketUser "s" (some "Alice") none).id = "s" :=
  ⟨by decide,
   (identity_is_connectionId initState "s" "g" true (some "Alice") none initState
      "a" "b" "Ann" (by decide)).1⟩

end PersonalChat
